import Mathlib

/-!
Verification of the FEN aggregation engine of the ChessDatasetGenerator
repository (`src/fen.js`, `src/lib/merge-worker.js`, `src/lib/fen-worker.js`).

The JavaScript sources are shallowly embedded as executable Lean functions:
input files are modelled as lists of raw text lines (the streaming readers of
`merge-worker.js` / `fen.js` deliver exactly the trimmed non-blank lines of a
file, in order, which is what `materializeLines` produces), JavaScript numbers
that hold counts are modelled as `Int` (they are only ever produced by
`parseInt` and integer addition), and JavaScript string primitives
(`indexOf`, `substring`, `split`, `trim`, `parseInt`,
`Array.prototype.sort`, `String.prototype.localeCompare`) are modelled by the
`js*` functions below, defined by structural recursion on the character list
of the string so that every theorem can be checked by kernel evaluation.
-/

/-! ## JavaScript string primitives -/

/-- The character list of a string dropped while a Boolean predicate holds on
both ends; used to model `String.prototype.trim`, which removes leading and
trailing whitespace. -/
def jsTrimList (cs : List Char) : List Char :=
  ((cs.dropWhile Char.isWhitespace).reverse.dropWhile Char.isWhitespace).reverse

/-- Model of `String.prototype.trim`. -/
def jsTrim (s : String) : String :=
  ⟨jsTrimList s.data⟩

/-- Model of `String.prototype.trimEnd` (trailing whitespace only). -/
def jsTrimEnd (s : String) : String :=
  ⟨(s.data.reverse.dropWhile Char.isWhitespace).reverse⟩

/-- `jsIndexOfFrom s c i` is the model of `s.indexOf(c, i)` for a one
character needle: the index of the first occurrence of `c` at or after
position `i`, `none` standing for JavaScript's `-1`. -/
def jsIndexOfFrom (s : String) (c : Char) (i : Nat) : Option Nat :=
  go (s.data.drop i) i
where
  go : List Char → Nat → Option Nat
    | [], _ => none
    | d :: ds, j => if d = c then some j else go ds (j + 1)

/-- Model of `s.indexOf(c)` for a one character needle. -/
def jsIndexOf (s : String) (c : Char) : Option Nat :=
  jsIndexOfFrom s c 0

/-- Model of `s.substring(a, b)` for `0 ≤ a ≤ b` (all uses in the embedded
code satisfy this; JavaScript would clamp and swap otherwise): the characters
of positions `a, …, b-1`. -/
def jsSubstring (s : String) (a b : Nat) : String :=
  ⟨(s.data.take b).drop a⟩

/-- Model of `s.substring(a)`: the suffix starting at position `a`. -/
def jsSubstringFrom (s : String) (a : Nat) : String :=
  ⟨s.data.drop a⟩

/-- Splitting a character list at every occurrence of the character `c`. -/
def jsSplitList (c : Char) : List Char → List (List Char)
  | [] => [[]]
  | d :: ds =>
    let rest := jsSplitList c ds
    if d = c then
      [] :: rest
    else
      match rest with
      | [] => [[d]]
      | seg :: segs => (d :: seg) :: segs

/-- Model of `s.split(c)` for a one character separator (the embedded code
splits only on `'|'`, `'\t'` and `' '`). As in JavaScript,
`"".split(c) = [""]` and separators at the ends produce empty segments. -/
def jsSplit (s : String) (c : Char) : List String :=
  (jsSplitList c s.data).map fun cs => ⟨cs⟩

/-- Digit characters consumed by `parseInt`. -/
def jsDigitVal (c : Char) : Option Nat :=
  if c.isDigit then some (c.toNat - 48) else none

/-- Value of the maximal leading run of decimal digits, `none` when there is
no leading digit (JavaScript `NaN`). -/
def jsLeadingDigits (cs : List Char) : Option Nat :=
  go cs none
where
  go : List Char → Option Nat → Option Nat
    | [], acc => acc
    | c :: cs, acc =>
      match jsDigitVal c with
      | none => acc
      | some d => go cs (some ((acc.getD 0) * 10 + d))

/-- Model of the global `parseInt(s)` with no radix argument, restricted to
decimal notation: leading whitespace is skipped, an optional sign is read,
then the maximal run of decimal digits; `none` models `NaN`. (JavaScript
additionally recognises a `0x` prefix as hexadecimal; no string handled by
this code base carries one, and none of the theorems below applies
`jsParseInt` to such a string.) -/
def jsParseInt (s : String) : Option Int :=
  let cs := s.data.dropWhile Char.isWhitespace
  match cs with
  | '-' :: rest => (jsLeadingDigits rest).map fun n => -(n : Int)
  | '+' :: rest => (jsLeadingDigits rest).map fun n => (n : Int)
  | _ => (jsLeadingDigits cs).map fun n => (n : Int)

/-- Model of the idiom `parseInt(s) || 0`, which maps `NaN` (and `0` and
`-0`, on which it is the identity anyway) to `0`. -/
def jsParseIntOr0 (s : String) : Int :=
  (jsParseInt s).getD 0

instance {ε α : Type} [DecidableEq ε] [DecidableEq α] :
    DecidableEq (Except ε α) := fun a b =>
  match a, b with
  | .ok x, .ok y =>
    if h : x = y then isTrue (by rw [h])
    else isFalse fun c => h (Except.ok.inj c)
  | .error x, .error y =>
    if h : x = y then isTrue (by rw [h])
    else isFalse fun c => h (Except.error.inj c)
  | .ok _, .error _ => isFalse fun c => Except.noConfusion c
  | .error _, .ok _ => isFalse fun c => Except.noConfusion c

/-! ## Byte order and the `localeCompare` collation

`fen.js` and `merge-worker.js` order keys with
`a.localeCompare(b)` (inside `Array.prototype.sort` comparators). Node's
default `localeCompare` is the ICU root collation, which on the ASCII
alphabet of FEN keys orders characters primarily as
punctuation/space < digits < letters with the two cases of a letter adjacent
(lowercase before uppercase at the tertiary level), *not* by code point.
`collKey` assigns every string its collation key under this model: first the
primary weights of its characters, then a separator, then the case weights.
`byteKey`/`byteLe` model plain code-point ("byte") comparison, which is what
the specification text asserts. -/

/-- Lexicographic `≤` on lists of naturals, by structural recursion. -/
def natListLe : List Nat → List Nat → Bool
  | [], _ => true
  | _ :: _, [] => false
  | a :: as, b :: bs =>
    if a < b then true else if a = b then natListLe as bs else false

/-- Primary collation weight of an ASCII character under the ICU root
collation: punctuation and space (kept apart by code point) below digits,
digits below letters, the two cases of a letter sharing one primary weight.
Characters outside ASCII do not occur in FEN keys and are collapsed into one
trailing class. -/
def collPrimary (c : Char) : Nat :=
  if c.isLower then 1000 + (c.toNat - 97)
  else if c.isUpper then 1000 + (c.toNat - 65)
  else if c.isDigit then 500 + (c.toNat - 48)
  else if c.toNat < 128 then c.toNat
  else 3000

/-- Case (tertiary) weight: uppercase after lowercase. -/
def collCase (c : Char) : Nat :=
  if c.isUpper then 1 else 0

/-- Collation key: primary weights (shifted above the `0` separator), the
separator, then the case weights. Comparing keys lexicographically compares
primaries first and breaks ties by case, as the root collation does. -/
def collKey (s : String) : List Nat :=
  (s.data.map fun c => collPrimary c + 1) ++ 0 :: s.data.map collCase

/-- Model of `a.localeCompare(b) <= 0` under the root collation. -/
def localeLe (a b : String) : Bool :=
  natListLe (collKey a) (collKey b)

/-- Code point sequence of a string; for the ASCII strings at hand this is
its byte sequence, and lexicographic comparison of these sequences is the
byte/lexicographic string order. -/
def byteKey (s : String) : List Nat :=
  s.data.map Char.toNat

/-- Byte/lexicographic `≤` on strings. -/
def byteLe (a b : String) : Bool :=
  natListLe (byteKey a) (byteKey b)

theorem natListLe_total : ∀ xs ys : List Nat, natListLe xs ys ∨ natListLe ys xs
  | [], _ => Or.inl rfl
  | _ :: _, [] => Or.inr rfl
  | a :: as, b :: bs => by
    rcases Nat.lt_trichotomy a b with h | h | h
    · exact Or.inl (by simp [natListLe, h])
    · subst h
      rcases natListLe_total as bs with ih | ih
      · exact Or.inl (by simp [natListLe, ih])
      · exact Or.inr (by simp [natListLe, ih])
    · exact Or.inr (by simp [natListLe, h])

theorem natListLe_trans :
    ∀ xs ys zs : List Nat, natListLe xs ys → natListLe ys zs → natListLe xs zs
  | [], _, _, _, _ => rfl
  | _ :: _, [], _, h, _ => by simp [natListLe] at h
  | _ :: _, _ :: _, [], _, h => by simp [natListLe] at h
  | a :: as, b :: bs, c :: cs, h₁, h₂ => by
    by_cases hab : a < b
    · by_cases hbc : b < c
      · simp [natListLe, Nat.lt_trans hab hbc]
      · simp only [natListLe] at h₂
        rw [if_neg hbc] at h₂
        by_cases hbc' : b = c
        · subst hbc'
          simp [natListLe, hab]
        · simp [hbc'] at h₂
    · simp only [natListLe] at h₁
      rw [if_neg hab] at h₁
      by_cases hab' : a = b
      · subst hab'
        rw [if_pos rfl] at h₁
        by_cases hac : a < c
        · simp [natListLe, hac]
        · simp only [natListLe] at h₂ ⊢
          rw [if_neg hac] at h₂ ⊢
          by_cases hac' : a = c
          · rw [if_pos hac'] at h₂ ⊢
            exact natListLe_trans as bs cs h₁ h₂
          · simp [hac'] at h₂
      · simp [hab'] at h₁

/-! ## Reader streams

Every reader in `merge-worker.js` (`readNextLineBatch`) and `fen.js`
(`readNextLine`) splits its file on `'\n'` with a carry-over buffer for a
line spanning two block reads, trims each line, skips lines that trim to the
empty string, and treats a buffered remainder at stream end as a final line.
The net effect is that a reader delivers exactly the trimmed non-blank lines
of the file in order, which is what this function produces from the raw
lines. -/
def materializeLines (rawLines : List String) : List String :=
  (rawLines.map jsTrim).filter fun l => !l.isEmpty

/-! ## Extraction worker: `src/lib/fen-worker.js` -/

namespace FenWorker

/-- One extracted position, `{fen, result, gameId}` as built by
`processGame`. -/
structure PositionRecord where
  fen : String
  result : String
  gameId : String
  deriving DecidableEq, Repr

/-- `normalizeFen` of `fen-worker.js`: keep the first four space-separated
FEN fields and pin the halfmove clock and fullmove counter to `0 1`. A
missing field renders as JavaScript's `undefined`. -/
def normalizeFen (fen : String) : String :=
  let parts := jsSplit fen ' '
  let get (i : Nat) : String := (parts.get? i).getD ("undefined")
  get 0 ++ " " ++ get 1 ++ " " ++ get 2 ++ " " ++ get 3 ++ " 0 1"

/-- The four game terminators recognised by `extractResult`, in the order of
the regex alternation `(1-0|0-1|1\/2-1\/2|\*)`. -/
def resultTokens : List String :=
  ["1-0", "0-1", "1/2-1/2", "*"]

/-- Whether `tok` terminates the line `l` in the sense of the regex
`/\s+(tok)\s*$/m`: after trailing whitespace is dropped, `l` ends with `tok`
preceded by a whitespace character. -/
def lineEndsWithResult (l tok : String) : Bool :=
  let t := (jsTrimEnd l).data
  let n := tok.data.length
  decide (t.drop (t.length - n) = tok.data) &&
    match (t.take (t.length - n)).getLast? with
    | some c => c.isWhitespace
    | none => false

/-- Model of `extractResult` of `fen-worker.js`
(`gameText.match(/\s+(1-0|0-1|1\/2-1\/2|\*)\s*$/m)`): the first line carrying
a whitespace-preceded terminator at its end, and the first token of the
alternation matching there. -/
def extractResult (gameText : String) : Option String :=
  (jsSplit gameText '\n').findSome? fun l =>
    resultTokens.find? fun tok => lineEndsWithResult l tok

/-- Model of `extractGameId` of `fen-worker.js`
(`gameText.match(/\[ID\s+"([^"]+)"\]/)` with the single space that the
upstream ID-tagging pass writes): the non-empty text between the first
`[ID "` and the following `"]`. -/
def extractGameId (gameText : String) : Option String :=
  match jsSplit gameText '\x22' with
  | seg₀ :: seg₁ :: seg₂ :: _ =>
    if (seg₀.data.drop (seg₀.data.length - 4) = "[ID ".data) ∧
        ¬seg₁.isEmpty ∧ seg₂.data.take 1 = "]".data then
      some seg₁
    else
      none
  | _ => none

/-- The rules-engine interface used by `processGame`: `chess.js`, an external
library, seen through the three operations the worker calls. `loadPgn`
returns the SAN history of the game or the error it throws on malformed
movetext or an illegal move; `move` plays one SAN move on a position. -/
structure ChessEngine where
  loadPgn : String → Except String (List String)
  initialFen : String
  move : String → String → Except String String

/-- The replay loop of `processGame`: for each ply push the normalized
pre-move FEN, then play the move; after the last move push the normalized
final position. An error thrown by `move` is caught by the surrounding
`try`/`catch`, which returns the positions pushed so far. -/
def replay (E : ChessEngine) (result gameId : String) :
    String → List String → List PositionRecord → List PositionRecord
  | fen, [], acc => acc ++ [⟨normalizeFen fen, result, gameId⟩]
  | fen, san :: rest, acc =>
    let acc' := acc ++ [⟨normalizeFen fen, result, gameId⟩]
    match E.move fen san with
    | .error _ => acc'
    | .ok fen' => replay E result gameId fen' rest acc'

/-- `processGame` of `fen-worker.js`: reject games without a valid result or
without an `ID` tag; load the PGN (a thrown parse/illegal-move error is
caught and the positions accumulated so far — none — are returned); replay
the history, emitting one record per ply plus the final position. -/
def processGame (E : ChessEngine) (gameText : String) : List PositionRecord :=
  match extractResult gameText with
  | none => []
  | some result =>
    if result = "*" then []
    else
      match extractGameId gameText with
      | none => []
      | some gameId =>
        match E.loadPgn gameText with
        | .error _ => []
        | .ok history => replay E result gameId E.initialFen history []

end FenWorker

/-! ## Chunk writer: `FenProcessor.writePositionsToChunk` (`src/fen.js`) -/

namespace FenProcessor

/-- The rotation state of the chunk writer: the record counts of the chunk
files already closed by rotation, and the record count of the currently open
chunk (`positionsInCurrentChunk`, reset to `0` by `initChunk`). -/
structure ChunkState where
  closed : List Nat
  current : Nat
  deriving DecidableEq, Repr

/-- One iteration of the loop body of `writePositionsToChunk`: if the open
chunk has reached `chunkSize` records it is closed and a fresh chunk opened
(`initChunk`), then the record is written to the open chunk. -/
def writeOnePosition (chunkSize : Nat) (st : ChunkState) : ChunkState :=
  if chunkSize ≤ st.current then
    { closed := st.closed ++ [st.current], current := 1 }
  else
    { st with current := st.current + 1 }

/-- `writePositionsToChunk` over a whole sequence of incoming positions
(the record contents are irrelevant to rotation, so positions are
indices). -/
def writePositionsToChunk (chunkSize : Nat) (st : ChunkState)
    (positions : List Nat) : ChunkState :=
  positions.foldl (fun s _ => writeOnePosition chunkSize s) st

/-- The sizes of all chunk files after feeding `n` positions through a fresh
writer: the rotated chunks followed by the still-open last chunk. -/
def chunkSizes (chunkSize n : Nat) : List Nat :=
  let st := writePositionsToChunk chunkSize ⟨[], 0⟩ (List.range n)
  st.closed ++ [st.current]

end FenProcessor

/-! ## Chunk sorter: `FenProcessor.processSingleChunk` (`src/fen.js`) -/

namespace FenProcessor

/-- The sort key of a chunk line: `line.split('|')[0]`, the text before the
first `'|'`. -/
def chunkKey (line : String) : String :=
  ((jsSplit line '|').get? 0).getD ("")

/-- The comparator of `processSingleChunk`,
`fenA.localeCompare(fenB)`, as a `≤` relation on lines. -/
def chunkLineLe (a b : String) : Prop :=
  localeLe (chunkKey a) (chunkKey b) = true

instance : DecidableRel chunkLineLe := fun _ _ =>
  inferInstanceAs (Decidable (_ = true))

instance : IsTotal String chunkLineLe :=
  ⟨fun a b => natListLe_total (collKey (chunkKey a)) (collKey (chunkKey b))⟩

instance : IsTrans String chunkLineLe :=
  ⟨fun a b c => natListLe_trans (collKey (chunkKey a)) (collKey (chunkKey b))
    (collKey (chunkKey c))⟩

/-- `processSingleChunk` of `fen.js` at the level of file contents: collect
the lines that do not trim to the empty string (`if (line.trim())`, keeping
the untrimmed line), sort them with the stable `Array.prototype.sort` under
the `localeCompare`-on-keys comparator (stable sorts under a total preorder
agree, so the stable `insertionSort` models it exactly), write the result and
delete the input file (the Boolean component: `fs.unlinkSync(chunkFile)` runs
before the promise resolves). -/
def processSingleChunk (lines : List String) : List String × Bool :=
  (List.insertionSort chunkLineLe
    (lines.filter fun l => !(jsTrim l).isEmpty), true)

end FenProcessor

/-! ## Merge worker: `MergeWorker.kWayMergeToSingleFile`
(`src/lib/merge-worker.js`) -/

namespace MergeWorker

/-- The running aggregate `currentStats` of the k-way merge. -/
structure Stats where
  occurrence : Int
  white : Int
  black : Int
  draw : Int
  deriving DecidableEq, Repr

/-- One entry of `currentPositions`: the reader index, its head line, the key
extracted from the head line, and (in phase 1 only) the `fen` field. In later
phases the code reads the absent property `currentPositions[0].fen`, i.e.
JavaScript `undefined`, modelled by `none`. -/
structure HeadPos where
  idx : Nat
  line : String
  key : String
  fenSlot : Option String
  deriving DecidableEq, Repr

/-- Head-line decoding, from the loop of `kWayMergeToSingleFile`. With
`isFirstPhase` the key (called `hash` in the source) is the text before the
first `'|'` and the `fen` field the text between the first and second `'|'`
(to the end of the line if there is no second `'|'`). Otherwise the key is
the text before the first `'\t'`. A head line without the separator is not
pushed onto `currentPositions` at all. -/
def headKeyFen (isFirstPhase : Bool) (line : String) :
    Option (String × Option String) :=
  if isFirstPhase then
    match jsIndexOf line '|' with
    | none => none
    | some p =>
      let key := jsSubstring line 0 p
      let fen :=
        match jsIndexOfFrom line '|' (p + 1) with
        | some q => jsSubstring line (p + 1) q
        | none => jsSubstringFrom line (p + 1)
      some (key, some fen)
  else
    match jsIndexOf line '\t' with
    | none => none
    | some t => some (jsSubstring line 0 t, none)

/-- The `result` taken from a phase-1 line:
`line.substring(pos.secondPipe + 1)`. When the line has no second `'|'`,
`secondPipe` is `-1` and the call is `substring(0)`: the whole line. -/
def p1Result (line : String) : String :=
  match jsIndexOf line '|' with
  | none => line
  | some p =>
    match jsIndexOfFrom line '|' (p + 1) with
    | some q => jsSubstringFrom line (q + 1)
    | none => line

/-- The phase-1 accumulation step: `occurrence += 1`, and the `switch` on the
result adds to exactly the matching tally — or to none when the result
matches no case. -/
def p1Update (st : Stats) (line : String) : Stats :=
  let st := { st with occurrence := st.occurrence + 1 }
  let res := p1Result line
  if res = "1-0" then { st with white := st.white + 1 }
  else if res = "0-1" then { st with black := st.black + 1 }
  else if res = "1/2-1/2" then { st with draw := st.draw + 1 }
  else st

/-- The positions of the first (up to) five `'\t'` characters of the line:
the source seeds `tabs` with `separatorIndex` (the first tab) and scans
forward, pushing every tab until `tabs.length === 5`. -/
def tabStops (line : String) : List Nat :=
  ((line.data.enum.filter fun p => p.2 = '\t').map Prod.fst).take 5

/-- `line.substring(tabs[j] + 1, tabs[k])` with JavaScript's treatment of a
missing entry: an absent `tabs[j]` makes the start `NaN`, coerced to `0`; an
absent `tabs[k]` makes the end `undefined`, which means the end of the
string. -/
def tabField (line : String) (tabs : List Nat) (j k : Nat) : String :=
  jsSubstring line (((tabs.get? j).map (· + 1)).getD 0)
    ((tabs.get? k).getD line.data.length)

/-- `line.substring(tabs[j] + 1)` with the same conventions. -/
def tabFieldLast (line : String) (tabs : List Nat) (j : Nat) : String :=
  jsSubstringFrom line (((tabs.get? j).map (· + 1)).getD 0)

/-- The later-phase accumulation step: the four numeric fields after the key
and `fen` columns are parsed with `parseInt(...) || 0` and summed. -/
def laterUpdate (st : Stats) (line : String) : Stats :=
  let tabs := tabStops line
  { occurrence := st.occurrence + jsParseIntOr0 (tabField line tabs 1 2)
    white := st.white + jsParseIntOr0 (tabField line tabs 2 3)
    black := st.black + jsParseIntOr0 (tabField line tabs 3 4)
    draw := st.draw + jsParseIntOr0 (tabFieldLast line tabs 4) }

/-- The line written on flush — note the six tab-separated fields
`` `${hash}\t${fen}\t${occurrence}\t${white}\t${black}\t${draw}` ``, the
second rendering as `undefined` outside phase 1 (the trailing `'\n'` is the
line separator of the output file and is left implicit in the line list). -/
def renderLine (key : String) (fenSlot : Option String) (st : Stats) :
    String :=
  key ++ "\t" ++ fenSlot.getD ("undefined") ++ "\t" ++
    toString st.occurrence ++ "\t" ++ toString st.white ++ "\t" ++
    toString st.black ++ "\t" ++ toString st.draw

/-- `currentPositions`: one entry per non-exhausted reader whose head line
carries the phase's separator. -/
def headPositions (isFirstPhase : Bool) (qs : List (List String)) :
    List HeadPos :=
  qs.enum.filterMap fun p =>
    match p.2 with
    | [] => none
    | line :: _ =>
      match headKeyFen isFirstPhase line with
      | none => none
      | some (k, f) => some ⟨p.1, line, k, f⟩

/-- The comparator of `currentPositions.sort((a, b) =>
a.hash.localeCompare(b.hash))` as a `≤` relation. -/
def headLe (a b : HeadPos) : Prop :=
  localeLe a.key b.key = true

instance : DecidableRel headLe := fun _ _ =>
  inferInstanceAs (Decidable (_ = true))

/-- Reader `i` consumes its head line (`reader.lineQueue.shift()`). -/
def popHead (qs : List (List String)) (i : Nat) : List (List String) :=
  qs.set i (((qs.get? i).getD []).tail)

/-- The merge loop state: the readers' line queues, `currentFen`
(key and `fen` slot of the aggregate being accumulated), `currentStats`, and
the flushed output lines. -/
structure MergeState where
  queues : List (List String)
  current : Option (String × Option String)
  stats : Stats
  outLines : List String
  deriving DecidableEq, Repr

/-- The `while (readers.some(r => !r.finished))` loop of
`kWayMergeToSingleFile`. Each iteration: build `currentPositions` from the
readers' head lines (`break` if none), pick the minimal key under the
`localeCompare` order (`Array.prototype.sort` is stable, so the stable
`insertionSort` and taking the equal-key prefix reproduce it), flush the
accumulated aggregate when the minimal key differs from `currentFen`, then
advance every reader whose head key equals the minimal key, folding its line
into the running stats. Every iteration that does not exit consumes at least
one line, so fuel `(total line count) + 1` runs the loop to completion. -/
def mergeLoop (isFirstPhase : Bool) : Nat → MergeState → MergeState
  | 0, st => st
  | fuel + 1, st =>
    if st.queues.all List.isEmpty then st
    else
      match List.insertionSort headLe (headPositions isFirstPhase st.queues)
        with
      | [] => st
      | top :: rest =>
        let minKey := top.key
        let flushed :=
          match st.current with
          | some (k, f) =>
            if k ≠ minKey then
              { st with
                outLines := st.outLines ++ [renderLine k f st.stats]
                stats := ⟨0, 0, 0, 0⟩ }
            else st
          | none => st
        let grp := (top :: rest).takeWhile fun p => p.key == minKey
        let stats' := grp.foldl
          (fun s p =>
            if isFirstPhase then p1Update s p.line else laterUpdate s p.line)
          flushed.stats
        let queues' := grp.foldl (fun qs p => popHead qs p.idx) flushed.queues
        mergeLoop isFirstPhase fuel
          { queues := queues'
            current := some (minKey, top.fenSlot)
            stats := stats'
            outLines := flushed.outLines }

/-- `kWayMergeToSingleFile(inputFiles, outputFile, isFirstPhase)`: run the
merge loop over the materialized input files, then flush the last
accumulated aggregate. The result is the sequence of output lines and
`positionsWritten` (the source increments the counter once per flushed
line). -/
def kWayMergeToSingleFile (inputFiles : List (List String))
    (isFirstPhase : Bool) : List String × Nat :=
  let qs := inputFiles.map materializeLines
  let fuel := (qs.map List.length).sum + 1
  let st := mergeLoop isFirstPhase fuel ⟨qs, none, ⟨0, 0, 0, 0⟩, []⟩
  let out :=
    match st.current with
    | some (k, f) => st.outLines ++ [renderLine k f st.stats]
    | none => st.outLines
  (out, out.length)

end MergeWorker

/-! ## Final merge / partitioner: `FenProcessor.kWayMergeFinal`
(`src/fen.js`) -/

namespace FenProcessor

/-- A finished aggregate as flushed by the final merge: `currentFen` plus
`currentStats` at the moment the minimal key moves past it. -/
structure Agg where
  fen : String
  occurrence : Int
  white : Int
  black : Int
  draw : Int
  deriving DecidableEq, Repr

/-- One entry of the final merge's `currentPositions`: reader index, head
line and its first tab-separated field. A head line with fewer than five
`'\t'`-separated parts is not pushed. -/
structure FinalHead where
  idx : Nat
  line : String
  fen : String
  deriving DecidableEq, Repr

/-- Head decoding of the final merge:
`parts = line.split('\t')`, pushed only `if (parts.length >= 5)`, with
`parts[0]` as the key. -/
def finalHeadKey (line : String) : Option String :=
  let parts := jsSplit line '\t'
  if 5 ≤ parts.length then some ((parts.get? 0).getD ("")) else none

/-- The accumulation step of the final merge: fields 1–4 of the consumed
line are parsed with `parseInt(parts[i]) || 0` and summed into
`currentStats`. -/
def finalUpdate (st : MergeWorker.Stats) (line : String) :
    MergeWorker.Stats :=
  let parts := jsSplit line '\t'
  let fld (i : Nat) : Int := jsParseIntOr0 ((parts.get? i).getD (""))
  { occurrence := st.occurrence + fld 1
    white := st.white + fld 2
    black := st.black + fld 3
    draw := st.draw + fld 4 }

/-- `currentPositions` of the final merge. -/
def finalHeads (qs : List (List String)) : List FinalHead :=
  qs.enum.filterMap fun p =>
    match p.2 with
    | [] => none
    | line :: _ =>
      match finalHeadKey line with
      | none => none
      | some k => some ⟨p.1, line, k⟩

/-- The comparator of `currentPositions.sort((a, b) =>
a.fen.localeCompare(b.fen))` as a `≤` relation. -/
def finalHeadLe (a b : FinalHead) : Prop :=
  localeLe a.fen b.fen = true

instance : DecidableRel finalHeadLe := fun _ _ =>
  inferInstanceAs (Decidable (_ = true))

/-- The loop state of `kWayMergeFinal`, with the flushed aggregates kept in
flush order. -/
structure FinalState where
  queues : List (List String)
  currentFen : Option String
  stats : MergeWorker.Stats
  aggs : List Agg
  deriving DecidableEq, Repr

/-- The `while (readers.some(r => !r.finished))` loop of `kWayMergeFinal`:
identical in structure to the merge worker's loop, except that the consumed
readers are `currentPositions.filter(pos => pos.fen === minFen)` (the same
group as the sorted equal-key prefix) and a flushed aggregate is recorded
instead of rendered. -/
def finalLoop : Nat → FinalState → FinalState
  | 0, st => st
  | fuel + 1, st =>
    if st.queues.all List.isEmpty then st
    else
      match List.insertionSort finalHeadLe (finalHeads st.queues) with
      | [] => st
      | top :: rest =>
        let minFen := top.fen
        let flushed :=
          match st.currentFen with
          | some k =>
            if k ≠ minFen then
              { st with
                aggs := st.aggs ++
                  [Agg.mk k st.stats.occurrence st.stats.white st.stats.black
                    st.stats.draw]
                stats := ⟨0, 0, 0, 0⟩ }
            else st
          | none => st
        let grp := (top :: rest).filter fun p => p.fen == minFen
        let stats' := grp.foldl (fun s p => finalUpdate s p.line) flushed.stats
        let queues' := grp.foldl (fun qs p => MergeWorker.popHead qs p.idx)
          flushed.queues
        finalLoop fuel
          { queues := queues'
            currentFen := some minFen
            stats := stats'
            aggs := flushed.aggs }

/-- The sequence of aggregates flushed by `kWayMergeFinal` over the
materialized input files, last aggregate included. -/
def mergeAggsFinal (inputFiles : List (List String)) : List Agg :=
  let qs := inputFiles.map materializeLines
  let fuel := (qs.map List.length).sum + 1
  let st := finalLoop fuel ⟨qs, none, ⟨0, 0, 0, 0⟩, []⟩
  match st.currentFen with
  | some k =>
    st.aggs ++
      [Agg.mk k st.stats.occurrence st.stats.white st.stats.black
        st.stats.draw]
  | none => st.aggs

/-- The eleven partition files: `1occ.tmp` … `9occ.tmp` and
`10plusocc.tmp`. -/
inductive Bucket where
  | occ (n : Int)
  | tenPlus
  deriving DecidableEq, Repr

/-- The stream a flushed aggregate is written to:
`occurrence >= 10` goes to `10plusocc.tmp`, otherwise the code indexes
`partitionStreams[occurrence]`, which is populated for `1 ≤ occurrence ≤ 9`
only — any other occurrence yields `undefined` (`none`). -/
def bucketFor (occurrence : Int) : Option Bucket :=
  if 10 ≤ occurrence then some Bucket.tenPlus
  else if 1 ≤ occurrence ∧ occurrence ≤ 9 then some (Bucket.occ occurrence)
  else none

/-- Routing of the flushed aggregates to their partition streams, in flush
order. Writing to the `undefined` stream throws a `TypeError`, which the
surrounding `catch` re-throws: the whole final merge fails
(`Except.error`). -/
def routeAggs : List Agg → Except String (List (Bucket × Agg))
  | [] => .ok []
  | a :: rest =>
    match bucketFor a.occurrence with
    | some b => (routeAggs rest).map fun out => (b, a) :: out
    | none => .error ("Cannot read properties of undefined (reading 'write')")

/-- `kWayMergeFinal(inputFiles)`: the k-way merge routed into occurrence
buckets. (In the source the routing of each aggregate happens at its flush;
composing the flush sequence with the routing yields the same outcome:
the same bucket contents on success, and failure exactly when some flushed
aggregate has no stream.) -/
def kWayMergeFinal (inputFiles : List (List String)) :
    Except String (List (Bucket × Agg)) :=
  routeAggs (mergeAggsFinal inputFiles)

/-- Whether an `Except` result is a success. -/
def isOkE {α : Type} (e : Except String α) : Bool :=
  match e with
  | .ok _ => true
  | .error _ => false

end FenProcessor

/-! ## Phase orchestration: `FenProcessor.multiPhaseKWayMerge`
(`src/fen.js`, lines 637–658) -/

namespace FenProcessor

/-- The message a merge worker posts back for one merge task:
`{success, error, outputFile, …}` (`merge-worker.js` returns
`success: false` with the caught error's message when anything in the task
throws). -/
structure MergeTaskResult where
  success : Bool
  error : String
  outputFile : String
  deriving DecidableEq, Repr

/-- The per-phase collection step of `multiPhaseKWayMerge`: every task's
result is awaited through `Promise.all`, and a result with
`success: false` makes the mapped task throw
`new Error("Worker merge failed: " + result.error)`, rejecting the whole
phase — which `run()` catches only to log, shut the pool down and re-throw,
so the process exits non-zero. A failing merge task therefore aborts the
run instead of being skipped. -/
def collectMergeResults : List MergeTaskResult → Except String (List String)
  | [] => .ok []
  | r :: rs =>
    if r.success then
      (collectMergeResults rs).map fun fs => r.outputFile :: fs
    else
      .error ("Worker merge failed: " ++ r.error)

end FenProcessor

/-! ## Helper lemmas -/

namespace FenProcessor

theorem isOkE_map {α β : Type} (f : α → β) (e : Except String α) :
    isOkE (e.map f) = isOkE e := by
  cases e <;> rfl

/-- On success, the routed output pairs every flushed aggregate, in flush
order, with the bucket `bucketFor` assigns to its occurrence. -/
theorem routeAggs_ok_spec :
    ∀ (l : List Agg) (out : List (Bucket × Agg)), routeAggs l = .ok out →
      out.map Prod.snd = l ∧ ∀ p ∈ out, bucketFor p.2.occurrence = some p.1
  | [], out, h => by
    cases h
    exact ⟨rfl, by simp⟩
  | a :: rest, out, h => by
    unfold routeAggs at h
    cases hb : bucketFor a.occurrence with
    | none => rw [hb] at h; exact absurd h (by simp)
    | some b =>
      rw [hb] at h
      cases hr : routeAggs rest with
      | error e => rw [hr] at h; exact absurd h (by simp [Except.map])
      | ok out' =>
        rw [hr] at h
        simp only [Except.map] at h
        cases h
        obtain ⟨ih₁, ih₂⟩ := routeAggs_ok_spec rest out' hr
        refine ⟨by simp [ih₁], ?_⟩
        intro p hp
        rcases List.mem_cons.mp hp with hp | hp
        · subst hp; exact hb
        · exact ih₂ p hp

theorem bucketFor_isSome_of_pos {n : Int} (h : 1 ≤ n) :
    ∃ b, bucketFor n = some b := by
  unfold bucketFor
  by_cases h10 : 10 ≤ n
  · exact ⟨Bucket.tenPlus, by rw [if_pos h10]⟩
  · exact ⟨Bucket.occ n, by rw [if_neg h10, if_pos ⟨h, by omega⟩]⟩

theorem bucketFor_eq_none_of_nonpos {n : Int} (h : n ≤ 0) :
    bucketFor n = none := by
  unfold bucketFor
  rw [if_neg (by omega), if_neg (by omega)]

theorem routeAggs_ok_of_all :
    ∀ l : List Agg, (l.all fun a => decide (1 ≤ a.occurrence)) = true →
      isOkE (routeAggs l) = true
  | [], _ => rfl
  | a :: rest, h => by
    rw [List.all_cons, Bool.and_eq_true] at h
    obtain ⟨b, hb⟩ := bucketFor_isSome_of_pos (of_decide_eq_true h.1)
    unfold routeAggs
    rw [hb, isOkE_map]
    exact routeAggs_ok_of_all rest h.2

theorem routeAggs_error_of_mem :
    ∀ (l : List Agg) (a : Agg), a ∈ l → a.occurrence ≤ 0 →
      isOkE (routeAggs l) = false
  | [], a, hmem, _ => absurd hmem (List.not_mem_nil a)
  | a' :: rest, a, hmem, hocc => by
    unfold routeAggs
    rcases List.mem_cons.mp hmem with hp | hp
    · subst hp
      rw [bucketFor_eq_none_of_nonpos hocc]
      rfl
    · cases hb : bucketFor a'.occurrence with
      | none => rfl
      | some b =>
        rw [isOkE_map]
        exact routeAggs_error_of_mem rest a hp hocc

/-- A concrete phase task-result list with one failed merge task in the
middle, as `multiPhaseKWayMerge` receives it from the merge worker pool. -/
def phase1Results : List MergeTaskResult :=
  [⟨true, "", "phase1/chunk_0.tmp"⟩,
   ⟨false, "EIO: read error", "phase1/chunk_1.tmp"⟩,
   ⟨true, "", "phase1/chunk_2.tmp"⟩]

/-- The rotation invariant of the chunk writer, generalized over the writer
state: feeding any positions into a state whose open chunk is within bounds
and whose closed chunks all have exactly `chunkSize` records preserves both
facts. -/
theorem writePositionsToChunk_invariant (chunkSize : Nat)
    (h : 0 < chunkSize) :
    ∀ (ps : List Nat) (st : ChunkState), st.current ≤ chunkSize →
      (∀ c ∈ st.closed, c = chunkSize) →
      (writePositionsToChunk chunkSize st ps).current ≤ chunkSize ∧
        ∀ c ∈ (writePositionsToChunk chunkSize st ps).closed, c = chunkSize
  | [], st, hcur, hcl => ⟨hcur, hcl⟩
  | _ :: ps, st, hcur, hcl => by
    refine writePositionsToChunk_invariant chunkSize h ps
      (writeOnePosition chunkSize st) ?_ ?_
    · unfold writeOnePosition
      split
      · exact h
      · next hlt => exact Nat.succ_le_of_lt (Nat.lt_of_not_le hlt)
    · unfold writeOnePosition
      split
      · next hge =>
        intro c hc
        rcases List.mem_append.mp hc with hc | hc
        · exact hcl c hc
        · rw [List.mem_singleton.mp hc]
          exact Nat.le_antisymm hcur hge
      · exact hcl

end FenProcessor

namespace FenWorker

/-- A rules engine whose `loadPgn` always throws, as `chess.js` does on a
game text with an illegal SAN move or malformed movetext. -/
def failingEngine : ChessEngine :=
  ⟨fun _ => .error ("Invalid move in PGN"), "init", fun _ _ => .error ("n/a")⟩

end FenWorker

/-! ## The claims -/

/-- C1: the claim states that the phase-1 merge of chunk A
`["e4fen|1-0","d4fen|0-1"]` and chunk B `["e4fen|1-0","e4fen|1/2-1/2"]`
produces exactly two aggregate records, `e4fen` with occurrence 3, white 2,
draw 1 and `d4fen` with occurrence 1, black 1, each phase-1 line
incrementing occurrence by 1 and its result incrementing exactly one of
white/black/draw. The code does not do this: `kWayMergeToSingleFile` parses
a phase-1 line as `hash|fen|result`, while the chunk writer of `fen.js`
emits `fen|result` (one `'|'`), so the `result` it switches on is the whole
line and **no** white/black/draw tally is ever incremented; moreover chunk A
is descending (`e4fen` before `d4fen`), so `e4fen` is flushed twice. The
actual output is these three six-field records. -/
theorem kWayMergeToSingleFile_scenario1 :
    MergeWorker.kWayMergeToSingleFile
      [["e4fen|1-0", "d4fen|0-1"], ["e4fen|1-0", "e4fen|1/2-1/2"]] true =
    (["e4fen\t1-0\t2\t0\t0\t0", "d4fen\t0-1\t1\t0\t0\t0",
      "e4fen\t1/2-1/2\t1\t0\t0\t0"], 3) := by decide

/-- C2: the claim states that every aggregate record produced by the merge
satisfies `occurrence = white + black + draw`. On the chunk lines the
repository's own chunk writer produces (`fen|result`, a single `'|'`), the
phase-1 accumulation step increments occurrence but never any of
white/black/draw (the parsed `result` is the whole line), so the single-line
merge below flushes a record with occurrence 1 and `white+black+draw = 0`:
the invariant fails. -/
theorem kWayMergeToSingleFile_aggregation_violation :
    MergeWorker.kWayMergeToSingleFile [["k|1-0"]] true =
      (["k\t1-0\t1\t0\t0\t0"], 1) ∧
    (MergeWorker.p1Update ⟨0, 0, 0, 0⟩ ("k|1-0")).occurrence ≠
      (MergeWorker.p1Update ⟨0, 0, 0, 0⟩ ("k|1-0")).white +
      (MergeWorker.p1Update ⟨0, 0, 0, 0⟩ ("k|1-0")).black +
      (MergeWorker.p1Update ⟨0, 0, 0, 0⟩ ("k|1-0")).draw := by decide

/-- C3: the claim states that every intermediate-phase output line has
exactly the five tab-separated fields
`<FEN>\t<occurrence>\t<white>\t<black>\t<draw>`. The flush template of
`kWayMergeToSingleFile` is
`` `${hash}\t${fen}\t${occurrence}\t${white}\t${black}\t${draw}` ``:
**six** fields, the second being whatever followed the first `'|'` of the
phase-1 input line (here the result `0-1`), against the five-field format
that `fen.js` documents at its phase-1 call site and that its own
`kWayMergeFinal` consumes. -/
theorem kWayMergeToSingleFile_line_fields :
    MergeWorker.kWayMergeToSingleFile [["m|0-1"]] true =
      (["m\t0-1\t1\t0\t0\t0"], 1) ∧
    (jsSplit ("m\t0-1\t1\t0\t0\t0") '\t').length = 6 := by decide

/-- C4 (counterexample): the claim states that when one merge task fails the
orchestrator proceeds with the remaining tasks of the phase and the run
completes with only that output missing. On a phase whose middle task
failed, `multiPhaseKWayMerge`'s collection step instead throws
`Worker merge failed: …` — it does not yield the other two output files. -/
theorem collectMergeResults_no_skip_counterexample :
    FenProcessor.collectMergeResults FenProcessor.phase1Results =
      .error ("Worker merge failed: EIO: read error") ∧
    FenProcessor.collectMergeResults FenProcessor.phase1Results ≠
      .ok ["phase1/chunk_0.tmp", "phase1/chunk_2.tmp"] := by decide

/-- C4 (amended): whenever any merge task of a phase reports failure, the
phase collection step of `multiPhaseKWayMerge` throws (the error reaches
`run()`, which logs it, preserves the temp files and re-throws, so the whole
run aborts); the failed task is not retried. -/
theorem collectMergeResults_abort (rs : List FenProcessor.MergeTaskResult)
    (r : FenProcessor.MergeTaskResult) (hmem : r ∈ rs)
    (hfail : r.success = false) :
    FenProcessor.isOkE (FenProcessor.collectMergeResults rs) = false := by
  induction rs with
  | nil => exact absurd hmem (List.not_mem_nil r)
  | cons r' rs ih =>
    unfold FenProcessor.collectMergeResults
    by_cases hs : r'.success = true
    · rw [if_pos hs, FenProcessor.isOkE_map]
      rcases List.mem_cons.mp hmem with hp | hp
      · rw [hp] at hfail; rw [hfail] at hs; exact absurd hs (by simp)
      · exact ih hp
    · rw [if_neg hs]
      rfl

/-- C4 (witness): the amended abort behavior at the concrete failing
phase. -/
theorem collectMergeResults_abort_witness :
    FenProcessor.isOkE
      (FenProcessor.collectMergeResults FenProcessor.phase1Results) = false :=
  collectMergeResults_abort FenProcessor.phase1Results
    ⟨false, "EIO: read error", "phase1/chunk_1.tmp"⟩ (by decide) rfl

/-- C5: every chunk file closed by the rotation of
`writePositionsToChunk` has exactly `chunkSize` records (only the still-open
last chunk may differ), and with `chunkSize = 2` and 5 incoming positions
the chunk sizes are `[2, 2, 1]`. -/
theorem writePositionsToChunk_rotation (chunkSize : Nat) (h : 0 < chunkSize)
    (ps : List Nat) :
    (∀ c ∈ (FenProcessor.writePositionsToChunk chunkSize ⟨[], 0⟩ ps).closed,
      c = chunkSize) ∧
    FenProcessor.chunkSizes 2 5 = [2, 2, 1] :=
  ⟨(FenProcessor.writePositionsToChunk_invariant chunkSize h ps ⟨[], 0⟩
      (Nat.zero_le _) (by simp)).2, by decide⟩

/-- C5 (witness): the concrete scenario, through the rotation theorem. -/
theorem writePositionsToChunk_rotation_witness :
    FenProcessor.chunkSizes 2 5 = [2, 2, 1] :=
  (writePositionsToChunk_rotation 2 (by decide) (List.range 5)).2

/-- C6 (counterexample): the claim states that `processSingleChunk` orders
lines by **byte**/lexicographic comparison of the key before the first
`'|'`. It sorts with `localeCompare`, which orders `a` before `B` (primary
letter order) while byte order puts `B` (0x42) before `a` (0x61): on this
chunk the produced consecutive keys `a`, `B` are byte-decreasing. -/
theorem processSingleChunk_byte_order_counterexample :
    (FenProcessor.processSingleChunk ["B|x", "a|y"]).1 = ["a|y", "B|x"] ∧
    byteLe (FenProcessor.chunkKey ("a|y")) (FenProcessor.chunkKey ("B|x")) =
      false := by decide

/-- C6 (amended): `processSingleChunk` writes the kept (non-blank) lines of
the chunk as a permutation sorted so that consecutive lines are
non-decreasing by the `localeCompare` collation of the key before the first
`'|'` (not by byte order), and deletes the input chunk file afterwards. -/
theorem processSingleChunk_sorted_locale (lines : List String) :
    List.Sorted FenProcessor.chunkLineLe
      (FenProcessor.processSingleChunk lines).1 ∧
    (FenProcessor.processSingleChunk lines).1.Perm
      (lines.filter fun l => !(jsTrim l).isEmpty) ∧
    (FenProcessor.processSingleChunk lines).2 = true := by
  refine ⟨?_, ?_, rfl⟩
  · exact List.sorted_insertionSort FenProcessor.chunkLineLe _
  · exact List.perm_insertionSort FenProcessor.chunkLineLe _

/-- C7: a game text whose replay fails — `chess.js`'s `loadPgn` throws on an
illegal SAN move or malformed movetext — contributes an empty list of
position records: the `try`/`catch` of `processGame` catches the error
before any position was pushed and returns the empty accumulator, and no
error reaches the caller (the function returns normally). -/
theorem processGame_replay_failure (E : FenWorker.ChessEngine) (g e : String)
    (h : E.loadPgn g = .error e) : FenWorker.processGame E g = [] := by
  unfold FenWorker.processGame
  rw [h]
  split
  · rfl
  · split
    · rfl
    · split
      · rfl
      · rfl

/-- C7 (witness): a game with a valid terminator and ID tag whose replay
fails yields no records. -/
theorem processGame_replay_failure_witness :
    FenWorker.processGame FenWorker.failingEngine
      "[ID \x22g1\x22]\nxx 1-0" = [] :=
  processGame_replay_failure FenWorker.failingEngine _ _ rfl

/-- C8: in the final merge every flushed aggregate is routed to exactly the
bucket `bucketFor` assigns to its occurrence — `occurrence` itself for 1–9,
`10plus` for 10 and above (so occurrence 10 lands in `10+` and occurrence 9
in bucket 9) — and on success the routed output is exactly the flush
sequence, each aggregate written once. -/
theorem kWayMergeFinal_bucket_partition (chunks : List (List String))
    (out : List (FenProcessor.Bucket × FenProcessor.Agg))
    (h : FenProcessor.kWayMergeFinal chunks = .ok out) :
    (out.map Prod.snd = FenProcessor.mergeAggsFinal chunks ∧
      ∀ p ∈ out, FenProcessor.bucketFor p.2.occurrence = some p.1) ∧
    FenProcessor.bucketFor 10 = some FenProcessor.Bucket.tenPlus ∧
    FenProcessor.bucketFor 9 = some (FenProcessor.Bucket.occ 9) :=
  ⟨FenProcessor.routeAggs_ok_spec _ out h, by decide, by decide⟩

/-- C8 (witness): a final merge holding one record of occurrence 9 and one
of occurrence 10, routed through the partition theorem. -/
theorem kWayMergeFinal_bucket_partition_witness :
    FenProcessor.bucketFor 10 = some FenProcessor.Bucket.tenPlus ∧
    FenProcessor.bucketFor 9 = some (FenProcessor.Bucket.occ 9) :=
  (kWayMergeFinal_bucket_partition [["k9\t9\t4\t3\t2", "kX\t10\t5\t3\t2"]]
    [(FenProcessor.Bucket.occ 9, ⟨"k9", 9, 4, 3, 2⟩),
     (FenProcessor.Bucket.tenPlus, ⟨"kX", 10, 5, 3, 2⟩)] rfl).2

/-- C9: re-sorting an already-sorted chunk — a chunk equal to the output of
a previous `processSingleChunk` run — reproduces it byte-identically: the
stable sort leaves a sorted list unchanged and every kept line is kept
again. -/
theorem processSingleChunk_idempotent (lines : List String) :
    FenProcessor.processSingleChunk
      ((FenProcessor.processSingleChunk lines).1) =
    ((FenProcessor.processSingleChunk lines).1, true) := by
  simp only [FenProcessor.processSingleChunk]
  have hall : ∀ x ∈ List.insertionSort FenProcessor.chunkLineLe
      (lines.filter fun l => !(jsTrim l).isEmpty),
      (!(jsTrim x).isEmpty) = true := by
    intro x hx
    have hx' : x ∈ lines.filter fun l => !(jsTrim l).isEmpty :=
      (List.mem_insertionSort FenProcessor.chunkLineLe).mp hx
    exact (List.mem_filter.mp hx').2
  rw [List.filter_eq_self.mpr hall,
    (List.sorted_insertionSort FenProcessor.chunkLineLe _).insertionSort_eq]

/-- C10: `partitionStreams[occurrence]` is populated only for occurrences 1
through 9, and the count fields are parsed with `parseInt(...) || 0`, so a
line whose occurrence field is non-numeric flushes an aggregate with
occurrence 0 whose write hits an `undefined` stream: the final merge
succeeds exactly when every flushed aggregate has occurrence at least 1, and
fails (at the thrown `TypeError`) whenever one does not. -/
theorem kWayMergeFinal_occurrence_precondition :
    (∀ chunks : List (List String),
      ((FenProcessor.mergeAggsFinal chunks).all fun a =>
        decide (1 ≤ a.occurrence)) = true →
      FenProcessor.isOkE (FenProcessor.kWayMergeFinal chunks) = true) ∧
    (∀ (chunks : List (List String)) (a : FenProcessor.Agg),
      a ∈ FenProcessor.mergeAggsFinal chunks → a.occurrence ≤ 0 →
      FenProcessor.isOkE (FenProcessor.kWayMergeFinal chunks) = false) ∧
    jsParseIntOr0 ("abc") = 0 ∧
    FenProcessor.kWayMergeFinal [["fenX\tabc\t0\t0\t0"]] =
      .error ("Cannot read properties of undefined (reading 'write')") :=
  ⟨fun chunks hall => FenProcessor.routeAggs_ok_of_all _ hall,
   fun chunks a hmem hocc => FenProcessor.routeAggs_error_of_mem _ a hmem hocc,
   by decide, by decide⟩

/-- C10 (witness): a final merge whose only flushed aggregate has occurrence
2 succeeds, through the precondition theorem. -/
theorem kWayMergeFinal_occurrence_precondition_witness :
    FenProcessor.isOkE
      (FenProcessor.kWayMergeFinal [["fenA\t2\t1\t1\t0"]]) = true :=
  kWayMergeFinal_occurrence_precondition.1 [["fenA\t2\t1\t1\t0"]] (by decide)
